import Mathlib

/-
Verification development for the y1d repository: a small pandas-based
backtesting pipeline (data_handling.py, backtest_strategy.py, config.py,
run_backtest.py, analyze_results.py).

The pandas data frames of the source are embedded shallowly as a `Frame`:
a list of column names together with rows, where each row carries its
parsed `Date` (modelled as a day number, an unbounded natural) and one
optional rational cell per column (`none` models a NaN entry).  Dates are
kept structurally separate from the cells because the source either uses
the Date column as the frame index (resampling) or filters on it; the
source never forward-fills or lags the Date column itself.
-/

set_option maxHeartbeats 1000000

namespace Y1D

/-- Cell value of an aggregated results table: the run-statistics records
hold numbers, while load_results appends string-valued filename and
timestamp columns. -/
inductive Val where
  | num (q : ℚ)
  | str (s : String)
deriving DecidableEq, Repr

/-- One row of a price frame: the parsed Date (day number) plus one
optional rational per column; `none` models a missing value (NaN). -/
structure Row where
  date : Nat
  cells : List (Option ℚ)
deriving DecidableEq, Repr

/-- A pandas data frame as used by data_handling.py: named columns plus
rows; the Date column is held separately in each row. -/
structure Frame where
  cols : List String
  rows : List Row
deriving DecidableEq, Repr

/-- Every row has exactly one cell per column. -/
def Frame.wellFormed (f : Frame) : Prop :=
  ∀ r ∈ f.rows, r.cells.length = f.cols.length

/-- No cell of the frame is missing (no NaN anywhere). -/
def Frame.complete (f : Frame) : Prop :=
  ∀ r ∈ f.rows, ∀ c ∈ r.cells, c.isSome = true

instance (f : Frame) : Decidable f.wellFormed := by
  unfold Frame.wellFormed; infer_instance

instance (f : Frame) : Decidable f.complete := by
  unfold Frame.complete; infer_instance

/- ----------------------------------------------------------------- -/
/- config.py                                                          -/
/- ----------------------------------------------------------------- -/

/-- TICKER from config.py. -/
def TICKER : String := "TSLA"

/-- INVESTMENT_AMOUNT from config.py (USD notional per position). -/
def INVESTMENT_AMOUNT : ℚ := 10000

/-- LOOKBACK_YEARS from config.py. -/
def LOOKBACK_YEARS : Nat := 5

/-- DATA_GRANULARITY from config.py. -/
def DATA_GRANULARITY : String := "Daily"

/- ----------------------------------------------------------------- -/
/- backtest_strategy.py : BuyBeforeOpenSellAtOpen.next                -/
/- ----------------------------------------------------------------- -/

/-- Observable decision taken by one call of
BuyBeforeOpenSellAtOpen.next: whether the existing position was closed,
and the size of the long position opened on this bar (`none` when no
order is placed).  Prices are rationals, embedding the float close
price. -/
structure NextAction where
  closedPosition : Bool
  buySize : Option Nat
deriving DecidableEq, Repr

/-- Shallow embedding of BuyBeforeOpenSellAtOpen.next from
backtest_strategy.py: close any existing position, compute
num_shares = floor(investment / last close), and buy that many shares
when it is at least 1. -/
def strategyNext (investment : ℚ) (hasPosition : Bool) (lastClose : ℚ) :
    NextAction :=
  let num_shares : ℤ := ⌊investment / lastClose⌋
  { closedPosition := hasPosition
    buySize := if 1 ≤ num_shares then some num_shares.toNat else none }

/- ----------------------------------------------------------------- -/
/- data_handling.py : get_url_dict and the ticker lookup              -/
/- ----------------------------------------------------------------- -/

/-- The fixed ticker-to-URL table of get_url_dict in data_handling.py. -/
def get_url_dict : List (String × String) :=
  [("APPL", "https://edubuas-my.sharepoint.com/:x:/g/personal/davarynejad_m_buas_nl/EUjD8nLdpt1FmcNq1kQckBAB9gfHTn2Y_hl1zGOo5ecrYQ?e=AEmTL8"),
   ("AMZN", "https://edubuas-my.sharepoint.com/:x:/g/personal/davarynejad_m_buas_nl/ERqUB631cFlEilFPtvFw5MkBlq_bVvc4xa27svDLWGlU3A?e=nHbTKw"),
   ("FANG", "https://edubuas-my.sharepoint.com/:x:/g/personal/davarynejad_m_buas_nl/EejmVAFQLv5PqJGuFXcvgVYBGswiq_oQJ4LhzslJbLAoAA?e=SN9BLa"),
   ("GOOG", "https://edubuas-my.sharepoint.com/:x:/g/personal/davarynejad_m_buas_nl/ET6y-MR3SidHjGGmm8DQMn4BtpSO-GnAokJ8GI4LsghZDw?e=st6IyB"),
   ("TSLA", "https://edubuas-my.sharepoint.com/:x:/g/personal/davarynejad_m_buas_nl/Ecv4R01Cn75Koj7y8UFjxHMBazIVliolR9rioUwyT03vcw?e=uq2TSF")]

/-- The dictionary lookup url_dict[ticker]: `none` embeds the KeyError
raised by Python for an absent key. -/
def lookupUrl (ticker : String) : Option String :=
  (get_url_dict.find? (fun p => p.1 = ticker)).map Prod.snd

/-- The tickers present in the fixed table. -/
def knownTickers : List String := get_url_dict.map Prod.fst

/-- Errors surfaced by fetch_stock_data before any frame exists:
the KeyError of the dictionary lookup (a LookupError subclass) and the
HTTPError of response.raise_for_status. -/
inductive FetchError where
  | keyError (ticker : String)
  | httpError (url : String)
deriving DecidableEq, Repr

/- ----------------------------------------------------------------- -/
/- data_handling.py : fetch_stock_data                                -/
/- ----------------------------------------------------------------- -/

/-- Forward-fill of one row against the running per-column carry:
a present cell stays, a missing cell takes the carried value
(pandas DataFrame.ffill, column-wise). -/
def fillRow (cells carry : List (Option ℚ)) : List (Option ℚ) :=
  List.zipWith
    (fun cur pre => match cur with | some x => some x | none => pre)
    cells carry

/-- Forward-fill of a row list, threading the filled previous row as the
carry for the next one. -/
def ffillRows (carry : List (Option ℚ)) : List Row → List Row
  | [] => []
  | r :: rs =>
      let c := fillRow r.cells carry
      ⟨r.date, c⟩ :: ffillRows c rs

/-- df.ffill() from fetch_stock_data: forward-fill every column, starting
from an all-missing carry.  The Date column is assumed present on every
row (to_datetime would fail otherwise) and is left untouched. -/
def Frame.ffill (f : Frame) : Frame :=
  ⟨f.cols, ffillRows (f.cols.map (fun _ => none)) f.rows⟩

/-- Gregorian calendar: day number (days since 1970-01-01) to
(year, month, day), the standard civil-from-days computation used to
embed the calendar arithmetic of pandas Timestamps. -/
def civilFromDays (d : Nat) : Nat × Nat × Nat :=
  let z := d + 719468
  let era := z / 146097
  let doe := z % 146097
  let yoe := (doe - doe / 1460 + doe / 36524 - doe / 146096) / 365
  let y := yoe + era * 400
  let doy := doe - (365 * yoe + yoe / 4 - yoe / 100)
  let mp := (5 * doy + 2) / 153
  let dy := doy - (153 * mp + 2) / 5 + 1
  let m := if mp < 10 then mp + 3 else mp - 9
  (if m ≤ 2 then y + 1 else y, m, dy)

/-- Gregorian calendar: (year, month, day) to day number since
1970-01-01 (for years at or after 1970). -/
def daysFromCivil (y m dy : Nat) : Nat :=
  let y2 := if m ≤ 2 then y - 1 else y
  let era := y2 / 400
  let yoe := y2 % 400
  let mp := if 2 < m then m - 3 else m + 9
  let doy := (153 * mp + 2) / 5 + dy - 1
  let doe := yoe * 365 + yoe / 4 - yoe / 100 + doy
  era * 146097 + doe - 719468

/-- Label of the weekly bucket of a date under the pandas frequency W
(weeks ending on Sunday, labelled by their right edge): the first Sunday
at or after the date.  Day 0 (1970-01-01) is a Thursday, so Sundays are
the days congruent to 3 modulo 7. -/
def weekLabel (d : Nat) : Nat :=
  d + (if d % 7 ≤ 3 then 3 - d % 7 else 10 - d % 7)

/-- Label of the monthly bucket of a date under the pandas frequency M
(calendar months labelled by their right edge): the last day of the
month containing the date. -/
def monthLabel (d : Nat) : Nat :=
  match civilFromDays d with
  | (y, m, _) =>
      (if m = 12 then daysFromCivil (y + 1) 1 1 else daysFromCivil y (m + 1) 1) - 1

/-- The freq dictionary of fetch_stock_data, mapping the granularity
string to the pandas frequency alias; `none` embeds the KeyError for a
granularity outside the dictionary. -/
def freqOf (granularity : String) : Option String :=
  if granularity = "Daily" then some "D"
  else if granularity = "Weekly" then some "W"
  else if granularity = "Monthly" then some "M"
  else none

/-- Bucket label of a date under a pandas resampling frequency alias:
each date is mapped to the (right-edge) label of the bucket containing
it, so two dates share a bucket exactly when they share a label. -/
def bucketKeyOfFreq (freq : String) : Nat → Nat :=
  fun d => if freq = "W" then weekLabel d else if freq = "M" then monthLabel d else d

/-- Last present value of a column slice, the per-column aggregation of
pandas Resampler.last (the last non-NaN value, `none` when there is
none). -/
def lastSome (xs : List (Option ℚ)) : Option ℚ :=
  xs.foldl (fun acc x => match x with | some y => some y | none => acc) none

/-- Per-column last-value aggregation of one bucket of rows. -/
def bucketAgg (ncols : Nat) (bucket : List Row) : List (Option ℚ) :=
  (List.range ncols).map (fun j => lastSome (bucket.map (fun r => r.cells.getD j none)))

/-- df.resample(freq).last().dropna().reset_index() from
fetch_stock_data, with `key` sending each date to its bucket label:
pandas materialises one candidate row per bucket label spanning the
index (here: every candidate label between the smallest and largest
label present; a non-label day simply owns no date and is dropped with
the other empty buckets), aggregates each bucket column-wise by its last
present value, and dropna discards every row still holding a missing
value, in particular every empty bucket.  The reset Date column holds
the bucket label. -/
def resampleRows (key : Nat → Nat) (ncols : Nat) (rows : List Row) : List Row :=
  match rows with
  | [] => []
  | r0 :: _ =>
      let ks := rows.map (fun r => key r.date)
      let kmin := ks.foldl min (key r0.date)
      let kmax := ks.foldl max (key r0.date)
      (List.range' kmin (kmax + 1 - kmin)).filterMap (fun k =>
        let bucket := rows.filter (fun r => key r.date = k)
        let agg := bucketAgg ncols bucket
        if agg.all Option.isSome then some ⟨k, agg⟩ else none)

/-- Frame-level resample-last-dropna; columns are unchanged (Date is the
index during resampling, so it is not aggregated). -/
def Frame.resampleLast (key : Nat → Nat) (f : Frame) : Frame :=
  ⟨f.cols, resampleRows key f.cols.length f.rows⟩

/-- Body of fetch_stock_data after the CSV has been parsed: forward-fill
and parse dates, then, unless the granularity is the string Minute,
look up the pandas frequency (KeyError for an unknown granularity),
print the notice, and resample.  The second component collects the
printed notices. -/
def fetch_stock_data_frame (granularity : String) (raw : Frame) :
    Except String (Frame × List String) :=
  let df := raw.ffill
  if granularity = "Minute" then Except.ok (df, [])
  else
    match freqOf granularity with
    | none => Except.error ("KeyError: " ++ granularity)
    | some freq =>
        Except.ok (df.resampleLast (bucketKeyOfFreq freq),
          ["The set level of Granularity is: " ++ freq ++ "."])

/-- The download=1 query-parameter munging of fetch_stock_data. -/
def normalizeUrl (url : String) : String :=
  if 1 < (url.splitOn "download=1").length then url
  else if 1 < (url.splitOn "?").length then url ++ "&download=1"
  else url ++ "?download=1"

/-- Full fetch_stock_data, with the network abstracted as a function
from URL to the parsed CSV frame of the successful response (`none`
embeds a non-2xx response, turned into an HTTPError by
raise_for_status).  An unknown ticker raises the KeyError of the
dictionary lookup before the network is ever consulted. -/
def fetch_stock_data (net : String → Option Frame) (ticker granularity : String) :
    Except FetchError (Except String (Frame × List String)) :=
  match lookupUrl ticker with
  | none => Except.error (FetchError.keyError ticker)
  | some url =>
      let url2 := normalizeUrl url
      match net url2 with
      | none => Except.error (FetchError.httpError url2)
      | some raw => Except.ok (fetch_stock_data_frame granularity raw)

/- ----------------------------------------------------------------- -/
/- data_handling.py : add_lags                                        -/
/- ----------------------------------------------------------------- -/

/-- pandas Series.shift(n): the value at position r becomes the value at
position r - n of the original column, the first n entries becoming
missing; the length is unchanged. -/
def shiftCol (n : Nat) (xs : List (Option ℚ)) : List (Option ℚ) :=
  (List.range xs.length).map (fun r => if r < n then none else xs.getD (r - n) none)

/-- The generated lag column name Lag_i. -/
def lagColName (i : Nat) : String := "Lag_" ++ toString i

/-- The cells of column j of a frame, in row order. -/
def colValues (f : Frame) (j : Nat) : List (Option ℚ) :=
  f.rows.map (fun r => r.cells.getD j none)

/-- add_lags from data_handling.py: for i in 1..num_lags append the
column Lag_i holding Close shifted by i*lag_gap, then dropna removes
every row holding a missing value.  A frame without a Close column
raises the KeyError of df[Close], embedded as the error case. -/
def add_lags (f : Frame) (num_lags lag_gap : Nat) : Except String Frame :=
  match f.cols.findIdx? (fun c => c = "Close") with
  | none => Except.error "KeyError: Close"
  | some j =>
      let closes := colValues f j
      let lagCols := (List.range num_lags).map (fun i => shiftCol ((i + 1) * lag_gap) closes)
      let cols2 := f.cols ++ (List.range num_lags).map (fun i => lagColName (i + 1))
      let rows2 := f.rows.enum.map
        (fun p => Row.mk p.2.date (p.2.cells ++ lagCols.map (fun c => c.getD p.1 none)))
      Except.ok ⟨cols2, rows2.filter (fun r => r.cells.all Option.isSome)⟩

/- ----------------------------------------------------------------- -/
/- data_handling.py : get_data_for_backtesting                        -/
/- ----------------------------------------------------------------- -/

/-- The boolean-mask selection df[df[Date] >= start_date]: row filtering
leaves the column set untouched.  The cutoff is an integer because
datetime.now() - timedelta(days=365*years) can predate the epoch. -/
def filterFromDate (start : Int) (f : Frame) : Frame :=
  ⟨f.cols, f.rows.filter (fun r => decide (start ≤ (r.date : Int)))⟩

/-- The required-column list of get_data_for_backtesting. -/
def required_columns : List String :=
  ["Open", "High", "Low", "Close", "Volume"]

/-- get_data_for_backtesting from data_handling.py, after the fetch:
filter to dates at or after now - 365*years days, then raise ValueError
at the first required column absent from the filtered frame, else return
the filtered frame (set_index only moves Date to the index, which the
embedding already keeps separate). -/
def get_data_for_backtesting_post (now : Int) (years : Nat) (fetched : Frame) :
    Except String Frame :=
  match required_columns.find?
      (fun c => !((filterFromDate (now - 365 * years) fetched).cols.contains c)) with
  | some c => Except.error ("Required column " ++ c ++ " not in data")
  | none => Except.ok (filterFromDate (now - 365 * years) fetched)

/- ----------------------------------------------------------------- -/
/- analyze_results.py                                                 -/
/- ----------------------------------------------------------------- -/

/-- Filename filter implied by the glob pattern stats_*.csv, stated over
the character list of the name: it starts with stats_ and ends with
.csv. -/
def statsPattern (name : String) : Bool :=
  (name.data.take 6 == "stats_".data)
    && (name.data.reverse.take 4 == ".csv".data.reverse)

/-- Column-order helper for pd.concat: keep the first occurrence of each
name, preserving order of appearance. -/
def dedupKeepFirstAux (seen : List String) : List String → List String
  | [] => []
  | c :: cs =>
      if c ∈ seen then dedupKeepFirstAux seen cs
      else c :: dedupKeepFirstAux (c :: seen) cs

/-- All column names occurring in a record list, first occurrences
first. -/
def unionCols (dfs : List (List (String × Val))) : List String :=
  dedupKeepFirstAux [] ((dfs.map (fun d => d.map Prod.fst)).flatten)

/-- pd.concat(dfs, ignore_index=True) on one-row frames, with the
default join=outer and sort=False of modern pandas: the only error is
the ValueError raised for an empty object list; otherwise the result
columns are the union of the column sets in order of appearance, each
record contributes one row, and an entry absent from a record is NaN
(`none`). -/
def concatOuter (dfs : List (List (String × Val))) :
    Except String (List String × List (List (Option Val))) :=
  match dfs with
  | [] => Except.error "No objects to concatenate"
  | _ =>
      let cols := unionCols dfs
      Except.ok (cols,
        dfs.map (fun d => cols.map (fun c => (d.find? (fun p => p.1 = c)).map Prod.snd)))

/-- The timestamp text extracted by the regex stats_(8 digits_6 digits)
from a filename of the shape produced by run_backtest. -/
def tsOf (name : String) : String := ((name.drop 6).take 15)

/-- load_results adds the filename and extracted-timestamp columns to
each loaded record. -/
def augmentRecord (name : String) (rec : List (String × Val)) :
    List (String × Val) :=
  rec ++ [("filename", Val.str name), ("timestamp", Val.str (tsOf name))]

/-- load_results from analyze_results.py over the directory listing
(filename paired with the parsed one-row CSV record): glob the
stats_*.csv files; none present prints the empty-state notice and
returns None (`none`); otherwise augment each record and concatenate.
Errors of the concatenation propagate. -/
def load_results (files : List (String × List (String × Val))) :
    Except String (Option (List String × List (List (Option Val)))) :=
  let csv_files := files.filter (fun fl => statsPattern fl.1)
  if csv_files.isEmpty then Except.ok none
  else (concatOuter (csv_files.map (fun fl => augmentRecord fl.1 fl.2))).map some

/-- Column mean as computed by pandas Series.mean: present numeric
values only; a missing column raises a KeyError.  (pandas returns NaN
for an all-missing column; that edge is collapsed to 0 here and never
reached by the claims.) -/
def colMean (cols : List String) (rows : List (List (Option Val))) (c : String) :
    Except String ℚ :=
  match cols.findIdx? (fun x => x = c) with
  | none => Except.error ("KeyError: " ++ c)
  | some j =>
      let xs := rows.filterMap (fun row =>
        match row.getD j none with | some (Val.num q) => some q | _ => none)
      Except.ok (xs.sum / xs.length)

/-- The summary record built by analyze_trades: the five average
headline metrics plus run metadata. -/
def analyze_trades_model (cols : List String) (rows : List (List (Option Val))) :
    Except String (List (String × Val)) := do
  let r ← colMean cols rows "Return [%]"
  let s ← colMean cols rows "Sharpe Ratio"
  let d ← colMean cols rows "Max. Drawdown [%]"
  let w ← colMean cols rows "Win Rate [%]"
  let t ← colMean cols rows "# Trades"
  Except.ok
    [("avg_return", Val.num r), ("avg_sharpe", Val.num s),
     ("avg_drawdown", Val.num d), ("avg_win_rate", Val.num w),
     ("avg_trades", Val.num t), ("ticker", Val.str TICKER),
     ("investment_amount", Val.num INVESTMENT_AMOUNT),
     ("lookback_years", Val.num LOOKBACK_YEARS),
     ("num_backtests", Val.num rows.length)]

/-- The columns read by plot_performance_metrics. -/
def plot_columns : List String :=
  ["Return [%]", "Sharpe Ratio", "Max. Drawdown [%]", "Win Rate [%]"]

/-- Observable outcome of main in analyze_results.py: the summary record
written by analyze_trades (if any) and whether the dashboard plot was
rendered. -/
structure MainResult where
  summary : Option (List (String × Val))
  plotted : Bool
deriving DecidableEq, Repr

/-- main from analyze_results.py: a missing results directory is created
and reported with no further work; then load_results, and only a
non-None non-empty result is analysed (writing the summary) and
plotted.  An error anywhere (concat, a missing metric column) is an
uncaught exception. -/
def analyze_main (dirExists : Bool) (files : List (String × List (String × Val))) :
    Except String MainResult :=
  if dirExists then
    match load_results files with
    | Except.error e => Except.error e
    | Except.ok none => Except.ok ⟨none, false⟩
    | Except.ok (some (cols, rows)) =>
        if rows.isEmpty then Except.ok ⟨none, false⟩
        else
          match analyze_trades_model cols rows with
          | Except.error e => Except.error e
          | Except.ok s =>
              if plot_columns.all (fun c => cols.contains c) then
                Except.ok ⟨some s, true⟩
              else Except.error "KeyError"
  else Except.ok ⟨none, false⟩

/- ----------------------------------------------------------------- -/
/- Theorems                                                           -/
/- ----------------------------------------------------------------- -/

/-- Claim C2: on every bar, for investment notional M and close price P,
the strategy opens a long position of exactly floor(M/P) whole shares,
and if floor(M/P) < 1 it opens no position on that bar. -/
theorem c2_sizing_floor (M P : ℚ) (hasPos : Bool) (hP : 0 < P) :
    (1 ≤ ⌊M / P⌋ → (strategyNext M hasPos P).buySize = some ⌊M / P⌋.toNat)
    ∧ (⌊M / P⌋ < 1 → (strategyNext M hasPos P).buySize = none) := by
  constructor
  · intro h
    simp only [strategyNext]
    rw [if_pos h]
  · intro h
    simp only [strategyNext]
    rw [if_neg (not_le.mpr h)]

/-- Witness for c2_sizing_floor: 10000 dollars at close 100 opens a
100-share position. -/
theorem c2_witness :
    (strategyNext 10000 false 100).buySize = some (⌊(10000 : ℚ) / 100⌋.toNat) :=
  (c2_sizing_floor 10000 100 false (by norm_num)).1 (by norm_num)

/-- Claim C6: a ticker absent from the fixed table fails with the
KeyError of the dictionary lookup, for every possible network (hence
before any network request); a ticker in the table looks up
successfully. -/
theorem c6_ticker_lookup (t : String) :
    (t ∉ knownTickers → ∀ (net : String → Option Frame) (g : String),
        fetch_stock_data net t g = Except.error (FetchError.keyError t))
    ∧ (t ∈ knownTickers → (lookupUrl t).isSome = true) := by
  constructor
  · intro h net g
    have hfind : get_url_dict.find? (fun p => p.1 = t) = none := by
      rw [List.find?_eq_none]
      intro p hp
      simp only [decide_eq_true_eq]
      intro hpt
      exact h (List.mem_map.mpr ⟨p, hp, hpt⟩)
    simp [fetch_stock_data, lookupUrl, hfind]
  · intro h
    rcases List.mem_map.mp h with ⟨p, hp, hpt⟩
    unfold lookupUrl
    cases hf : get_url_dict.find? (fun q => q.1 = t) with
    | some q => simp
    | none =>
        rw [List.find?_eq_none] at hf
        exact absurd (by simp [hpt] : (fun q : String × String => decide (q.1 = t)) p = true)
          (by simpa using hf p hp)

/-- Witness for c6_ticker_lookup: MSFT is rejected with a KeyError no
matter the network, and TSLA is found. -/
theorem c6_witness :
    fetch_stock_data (fun _ => none) "MSFT" "Daily"
        = Except.error (FetchError.keyError "MSFT")
    ∧ (lookupUrl "TSLA").isSome = true :=
  ⟨(c6_ticker_lookup "MSFT").1 (by decide) (fun _ => none) "Daily",
   (c6_ticker_lookup "TSLA").2 (by decide)⟩

/-- Claim C9: for the granularity string Minute, fetch_stock_data
returns the forward-filled, date-parsed frame entirely un-resampled,
prints no resampling notice, and raises no error. -/
theorem c9_minute_passthrough (raw : Frame) :
    fetch_stock_data_frame "Minute" raw = Except.ok (raw.ffill, []) := rfl

/-- Claim C4: the date-range filter of get_data_for_backtesting retains
a bar exactly when its date is at or after now - 365*years days. -/
theorem c4_date_filter_iff (now : Int) (years : Nat) (fetched out : Frame)
    (r : Row)
    (hok : get_data_for_backtesting_post now years fetched = Except.ok out) :
    r ∈ out.rows ↔ (r ∈ fetched.rows ∧ now - 365 * years ≤ (r.date : Int)) := by
  unfold get_data_for_backtesting_post at hok
  split at hok
  · exact absurd hok (by simp)
  · have hout : out = filterFromDate (now - 365 * years) fetched :=
      ((Except.ok.injEq _ _).mp hok).symm
    subst hout
    simp [filterFromDate, List.mem_filter]

/-- Witness for c4_date_filter_iff: with now = 400 and a one-year
lookback, the bar dated day 10 is dropped because 10 < 35. -/
theorem c4_witness :
    (Row.mk 10 [some 1, some 1, some 1, some 1, some 1])
        ∈ (Frame.mk required_columns []).rows
    ↔ ((Row.mk 10 [some 1, some 1, some 1, some 1, some 1])
        ∈ (Frame.mk required_columns [Row.mk 10 [some 1, some 1, some 1, some 1, some 1]]).rows
       ∧ (400 : Int) - 365 * (1 : Nat) ≤ ((10 : Nat) : Int)) :=
  c4_date_filter_iff 400 1
    (Frame.mk required_columns [Row.mk 10 [some 1, some 1, some 1, some 1, some 1]])
    (Frame.mk required_columns [])
    (Row.mk 10 [some 1, some 1, some 1, some 1, some 1]) rfl

/-- Claim C10: a frame holding the required OHLCV columns whose bars all
predate the cutoff filters down to an empty frame, the required-column
check still passes (row filtering keeps the column set), and no error is
raised. -/
theorem c10_empty_after_filter_ok (now : Int) (years : Nat) (fetched : Frame)
    (hcols : ∀ c ∈ required_columns, c ∈ fetched.cols)
    (hall : ∀ r ∈ fetched.rows, (r.date : Int) < now - 365 * years) :
    get_data_for_backtesting_post now years fetched
      = Except.ok (Frame.mk fetched.cols []) := by
  unfold get_data_for_backtesting_post
  have h1 : filterFromDate (now - 365 * years) fetched = Frame.mk fetched.cols [] := by
    unfold filterFromDate
    have hnil : fetched.rows.filter (fun r => decide (now - 365 * years ≤ (r.date : Int))) = [] := by
      rw [List.filter_eq_nil_iff]
      intro r hr
      simp only [decide_eq_true_eq, not_le]
      exact hall r hr
    rw [hnil]
  rw [h1]
  have h2 : required_columns.find? (fun c => !((Frame.mk fetched.cols []).cols.contains c))
      = none := by
    rw [List.find?_eq_none]
    intro c hc
    have hmem := hcols c hc
    simp [hmem]
  rw [h2]

/-- Witness for c10_empty_after_filter_ok: a one-bar OHLCV frame dated
day 10 with cutoff day 35 yields an empty frame with no error. -/
theorem c10_witness :
    get_data_for_backtesting_post 400 1
        (Frame.mk required_columns [Row.mk 10 [some 2, some 3, some 1, some 2, some 9]])
      = Except.ok (Frame.mk required_columns []) :=
  c10_empty_after_filter_ok 400 1
    (Frame.mk required_columns [Row.mk 10 [some 2, some 3, some 1, some 2, some 9]])
    (by decide) (by decide)

/-- Claim C7: when no file in the results directory matches the
stats_*.csv pattern, load_results returns None and main terminates
cleanly with no exception, no summary record and no plot. -/
theorem c7_empty_results_clean (files : List (String × List (String × Val)))
    (h : files.filter (fun fl => statsPattern fl.1) = []) :
    load_results files = Except.ok none
    ∧ analyze_main true files = Except.ok (MainResult.mk none false) := by
  have hl : load_results files = Except.ok none := by
    unfold load_results
    rw [h]
    rfl
  refine ⟨hl, ?_⟩
  unfold analyze_main
  rw [if_pos rfl, hl]

/-- Witness for c7_empty_results_clean: a directory holding only a
non-matching file produces the clean empty outcome. -/
theorem c7_witness :
    load_results [("readme.txt", [])] = Except.ok none
    ∧ analyze_main true [("readme.txt", [])] = Except.ok (MainResult.mk none false) :=
  c7_empty_results_clean [("readme.txt", [])] (by decide)

/-- Membership in dedupKeepFirstAux: an element appears exactly when it
appears in the input and is not among the already-seen names. -/
theorem mem_dedupKeepFirstAux (l : List String) :
    ∀ (seen : List String) (x : String),
      x ∈ dedupKeepFirstAux seen l ↔ x ∈ l ∧ x ∉ seen := by
  induction l with
  | nil => intro seen x; simp [dedupKeepFirstAux]
  | cons c cs ih =>
      intro seen x
      unfold dedupKeepFirstAux
      by_cases hcs : c ∈ seen
      · rw [if_pos hcs, ih]
        constructor
        · rintro ⟨h1, h2⟩
          exact ⟨List.mem_cons_of_mem _ h1, h2⟩
        · rintro ⟨h1, h2⟩
          rcases List.mem_cons.mp h1 with h1 | h1
          · exact absurd (h1 ▸ hcs) h2
          · exact ⟨h1, h2⟩
      · rw [if_neg hcs]
        constructor
        · intro hx
          rcases List.mem_cons.mp hx with hx | hx
          · exact ⟨hx ▸ List.mem_cons_self _ _, hx ▸ hcs⟩
          · rcases (ih (c :: seen) x).mp hx with ⟨h1, h2⟩
            exact ⟨List.mem_cons_of_mem _ h1,
              fun hseen => h2 (List.mem_cons_of_mem _ hseen)⟩
        · rintro ⟨h1, h2⟩
          rcases List.mem_cons.mp h1 with h1 | h1
          · exact h1 ▸ List.mem_cons_self _ _
          · by_cases hxc : x = c
            · exact hxc ▸ List.mem_cons_self _ _
            · exact List.mem_cons_of_mem _
                ((ih (c :: seen) x).mpr
                  ⟨h1, fun hx => (List.mem_cons.mp hx).elim hxc h2⟩)

/-- dedupKeepFirstAux never repeats a name. -/
theorem nodup_dedupKeepFirstAux (l : List String) :
    ∀ seen : List String, (dedupKeepFirstAux seen l).Nodup := by
  induction l with
  | nil => intro seen; simp [dedupKeepFirstAux]
  | cons c cs ih =>
      intro seen
      unfold dedupKeepFirstAux
      split
      · exact ih _
      · refine List.Nodup.cons ?_ (ih _)
        intro hmem
        exact ((mem_dedupKeepFirstAux cs (c :: seen) c).mp hmem).2
          (List.mem_cons_self _ _)

/-- Counterexample to claim C3 as stated: concatenating two run records
with disjoint column sets raises no error at all; the records are
silently coerced into a combined table whose missing entries are NaN
(`none`). -/
theorem c3_concat_counterexample :
    concatOuter [[("Return [%]", Val.num 1)], [("Lag_1", Val.num 2)]]
      = Except.ok (["Return [%]", "Lag_1"],
          [[some (Val.num 1), none], [none, some (Val.num 2)]]) := by rfl

/-- Claim C3 as amended: pd.concat fails only on an empty record list;
for any records, mismatched or not, it succeeds and outer-joins the
column sets in order of first appearance, filling each entry absent from
a record with NaN (`none`). -/
theorem c3_concat_outer_union (dfs : List (List (String × Val))) (h : dfs ≠ []) :
    ∃ cols, concatOuter dfs
        = Except.ok (cols,
            dfs.map (fun d => cols.map (fun c => (d.find? (fun p => p.1 = c)).map Prod.snd)))
      ∧ cols.Nodup
      ∧ (∀ c, c ∈ cols ↔ ∃ d ∈ dfs, ∃ p ∈ d, p.1 = c) := by
  refine ⟨unionCols dfs, ?_, nodup_dedupKeepFirstAux _ _, ?_⟩
  · cases dfs with
    | nil => exact absurd rfl h
    | cons a l => rfl
  · intro c
    unfold unionCols
    rw [mem_dedupKeepFirstAux]
    simp only [List.not_mem_nil, not_false_iff, and_true, List.mem_flatten,
      List.mem_map]
    constructor
    · rintro ⟨col, ⟨d, hd, rfl⟩, hc⟩
      rcases List.mem_map.mp hc with ⟨p, hp, hpc⟩
      exact ⟨d, hd, p, hp, hpc⟩
    · rintro ⟨d, hd, p, hp, hpc⟩
      exact ⟨d.map Prod.fst, ⟨d, hd, rfl⟩, List.mem_map.mpr ⟨p, hp, hpc⟩⟩

/-- Witness for c3_concat_outer_union: a single one-column record. -/
theorem c3_witness :
    ∃ cols, concatOuter [[("Return [%]", Val.num 7)]]
        = Except.ok (cols,
            [[("Return [%]", Val.num 7)]].map
              (fun d => cols.map (fun c => (d.find? (fun p => p.1 = c)).map Prod.snd)))
      ∧ cols.Nodup
      ∧ (∀ c, c ∈ cols ↔ ∃ d ∈ [[("Return [%]", Val.num 7)]], ∃ p ∈ d, p.1 = c) :=
  c3_concat_outer_union [[("Return [%]", Val.num 7)]] (by simp)

/-- A filter whose predicate holds exactly from position m onward
removes precisely the first m elements. -/
theorem filter_eq_drop {α : Type} (p : α → Bool) :
    ∀ (l : List α) (m : Nat),
      (∀ i (h : i < l.length), p l[i] = decide (m ≤ i)) →
      l.filter p = l.drop m := by
  intro l
  induction l with
  | nil => intro m _; simp
  | cons a t ih =>
      intro m hp
      cases m with
      | zero =>
          rw [List.drop_zero]
          rw [List.filter_eq_self.mpr]
          intro x hx
          rcases List.mem_iff_getElem.mp hx with ⟨i, hi, rfl⟩
          simpa using hp i hi
      | succ m2 =>
          have ha : p a = false := by simpa using hp 0 (by simp)
          rw [List.drop_succ_cons, List.filter_cons_of_neg (by simp [ha])]
          refine ih m2 (fun i h => ?_)
          have := hp (i + 1) (by simpa using Nat.succ_lt_succ h)
          simpa using this

/-- Claim C5: on a complete price series, add_lags with lag count K at
least 1 and lag gap G at least 1 removes exactly the earliest K*G rows
(so the output row count is the input count minus K*G, and the retained
dates are the dropped-by-K*G date sequence), appends the columns Lag_1
to Lag_K, and for every retained row of pre-drop position r, the cell of
Lag_(i+1) (the cell at column position cols.length + i) holds the Close
value of pre-drop row r - (i+1)*G. -/
theorem c5_add_lags_spec (f : Frame) (K G j : Nat)
    (hw : f.wellFormed) (hc : f.complete) (hK : 1 ≤ K) (hG : 1 ≤ G)
    (hj : f.cols.findIdx? (fun c => c = "Close") = some j) :
    ∃ out, add_lags f K G = Except.ok out
      ∧ out.cols = f.cols ++ (List.range K).map (fun i => lagColName (i + 1))
      ∧ out.rows.length = f.rows.length - K * G
      ∧ out.rows.map Row.date = (f.rows.map Row.date).drop (K * G)
      ∧ ∀ r, K * G ≤ r → r < f.rows.length → ∀ i, i < K →
          (out.rows.getD (r - K * G) (Row.mk 0 [])).cells.getD (f.cols.length + i) none
            = (colValues f j).getD (r - (i + 1) * G) none := by
  have hjlt : j < f.cols.length := by
    rcases List.findIdx?_eq_some_iff_getElem.mp hj with ⟨h1, _⟩
    exact h1
  have hmain : add_lags f K G
      = Except.ok
          ⟨f.cols ++ (List.range K).map (fun i => lagColName (i + 1)),
           (f.rows.enum.map
              (fun p => Row.mk p.2.date
                (p.2.cells ++
                  ((List.range K).map (fun i => shiftCol ((i + 1) * G) (colValues f j))).map
                    (fun c => c.getD p.1 none)))).filter
             (fun r => r.cells.all Option.isSome)⟩ := by
    unfold add_lags
    rw [hj]
  set rows2 := f.rows.enum.map
      (fun p => Row.mk p.2.date
        (p.2.cells ++
          ((List.range K).map (fun i => shiftCol ((i + 1) * G) (colValues f j))).map
            (fun c => c.getD p.1 none))) with hrows2def
  have hcloseslen : (colValues f j).length = f.rows.length := by
    simp [colValues]
  have hclosessome : ∀ r2, r2 < f.rows.length →
      ((colValues f j).getD r2 none).isSome = true := by
    intro r2 h
    rw [List.getD_eq_getElem _ _ (by rw [hcloseslen]; exact h)]
    simp only [colValues, List.getElem_map]
    have hrmem : f.rows[r2] ∈ f.rows := List.getElem_mem _
    have hlen : (f.rows[r2]).cells.length = f.cols.length := hw _ hrmem
    rw [List.getD_eq_getElem _ _ (by rw [hlen]; exact hjlt)]
    exact hc _ hrmem _ (List.getElem_mem _)
  have hshift : ∀ (m r2 : Nat), r2 < f.rows.length →
      (shiftCol m (colValues f j)).getD r2 none
        = if r2 < m then none else (colValues f j).getD (r2 - m) none := by
    intro m r2 h
    have hb : r2 < (shiftCol m (colValues f j)).length := by
      simp only [shiftCol, List.length_map, List.length_range, hcloseslen]
      exact h
    rw [List.getD_eq_getElem _ _ hb]
    simp [shiftCol]
  have hrows2len : rows2.length = f.rows.length := by
    simp [hrows2def]
  have hrows2get : ∀ (r : Nat) (h2 : r < f.rows.length) (h : r < rows2.length),
      rows2[r]
        = Row.mk (f.rows[r]).date
            ((f.rows[r]).cells ++
              ((List.range K).map (fun i => shiftCol ((i + 1) * G) (colValues f j))).map
                (fun c => c.getD r none)) := by
    intro r h2 h
    simp [hrows2def]
  have hpred : ∀ (r : Nat) (h : r < rows2.length),
      ((rows2[r]).cells.all Option.isSome) = decide (K * G ≤ r) := by
    intro r h
    have h2 : r < f.rows.length := hrows2len ▸ h
    rw [hrows2get r h2 h]
    simp only [List.all_append]
    have hcells : (f.rows[r]).cells.all Option.isSome = true := by
      rw [List.all_eq_true]
      intro c hcm
      exact hc _ (List.getElem_mem _) _ hcm
    rw [hcells, Bool.true_and, List.map_map]
    by_cases hr : K * G ≤ r
    · rw [decide_eq_true hr, List.all_eq_true]
      intro x hx
      rcases List.mem_map.mp hx with ⟨i, hi, rfl⟩
      have hiK : i + 1 ≤ K := List.mem_range.mp hi
      simp only [Function.comp_apply]
      rw [hshift _ r h2]
      have hle : (i + 1) * G ≤ r :=
        le_trans (Nat.mul_le_mul_right _ hiK) hr
      rw [if_neg (by omega)]
      exact hclosessome _ (by omega)
    · rw [decide_eq_false hr, List.all_eq_false]
      refine ⟨((fun c => c.getD r none) ∘ fun i => shiftCol ((i + 1) * G) (colValues f j)) (K - 1),
        List.mem_map.mpr ⟨K - 1, List.mem_range.mpr (by omega), rfl⟩, ?_⟩
      simp only [Function.comp_apply]
      rw [hshift _ r h2]
      rw [if_pos (by
        have hKG : (K - 1 + 1) * G = K * G := by
          congr 1
          omega
        omega)]
      simp
  have hfd : rows2.filter (fun r => r.cells.all Option.isSome) = rows2.drop (K * G) :=
    filter_eq_drop _ rows2 (K * G) hpred
  refine ⟨_, hmain, rfl, ?_, ?_, ?_⟩
  · rw [hfd, List.length_drop, hrows2len]
  · rw [hfd, List.map_drop]
    congr 1
    apply List.ext_getElem
    · simp [hrows2def]
    · intro n h1 h3
      simp [hrows2def]
  · intro r hKG hrn i hiK
    rw [hfd]
    have hb : r - K * G < (rows2.drop (K * G)).length := by
      rw [List.length_drop, hrows2len]
      omega
    rw [List.getD_eq_getElem _ _ hb]
    rw [List.getElem_drop]
    simp only [show K * G + (r - K * G) = r from by omega]
    have hr2 : r < rows2.length := by rw [hrows2len]; exact hrn
    rw [hrows2get r hrn hr2]
    have hlenc : (f.rows[r]).cells.length = f.cols.length :=
      hw _ (List.getElem_mem _)
    have hbig : f.cols.length + i
        < ((f.rows[r]).cells ++
            ((List.range K).map (fun i => shiftCol ((i + 1) * G) (colValues f j))).map
              (fun c => c.getD r none)).length := by
      rw [List.length_append, hlenc]
      simp only [List.length_map, List.length_range]
      omega
    rw [List.getD_eq_getElem _ _ hbig]
    rw [List.getElem_append_right (by omega)]
    have hsm : (f.cols.length + i - (f.rows[r]).cells.length) = i := by
      rw [hlenc]; omega
    simp only [hsm, List.getElem_map, List.getElem_range]
    rw [hshift _ r hrn]
    rw [if_neg (by
      have hle2 : (i + 1) * G ≤ K * G := Nat.mul_le_mul_right _ (by omega)
      omega)]

/-- Witness for c5_add_lags_spec: one lag of gap one over a four-bar
series drops the first bar and lags Close by one. -/
theorem c5_witness :
    ∃ out, add_lags (Frame.mk ["Close"]
        [Row.mk 0 [some 5], Row.mk 1 [some 6], Row.mk 2 [some 7], Row.mk 3 [some 8]]) 1 1
        = Except.ok out
      ∧ out.cols = ["Close"] ++ (List.range 1).map (fun i => lagColName (i + 1))
      ∧ out.rows.length
          = (Frame.mk ["Close"]
              [Row.mk 0 [some 5], Row.mk 1 [some 6], Row.mk 2 [some 7], Row.mk 3 [some 8]]).rows.length - 1 * 1
      ∧ out.rows.map Row.date
          = ((Frame.mk ["Close"]
              [Row.mk 0 [some 5], Row.mk 1 [some 6], Row.mk 2 [some 7], Row.mk 3 [some 8]]).rows.map Row.date).drop (1 * 1)
      ∧ ∀ r, 1 * 1 ≤ r → r < (Frame.mk ["Close"]
              [Row.mk 0 [some 5], Row.mk 1 [some 6], Row.mk 2 [some 7], Row.mk 3 [some 8]]).rows.length → ∀ i, i < 1 →
          ((out.rows.getD (r - 1 * 1) (Row.mk 0 [])).cells.getD
              ((Frame.mk ["Close"]
                [Row.mk 0 [some 5], Row.mk 1 [some 6], Row.mk 2 [some 7], Row.mk 3 [some 8]]).cols.length + i) none)
            = (colValues (Frame.mk ["Close"]
                [Row.mk 0 [some 5], Row.mk 1 [some 6], Row.mk 2 [some 7], Row.mk 3 [some 8]]) 0).getD (r - (i + 1) * 1) none :=
  c5_add_lags_spec
    (Frame.mk ["Close"]
      [Row.mk 0 [some 5], Row.mk 1 [some 6], Row.mk 2 [some 7], Row.mk 3 [some 8]])
    1 1 0 (by decide) (by decide) (by decide) (by decide) (by decide)

/-- Forward-filling a row whose cells are all present changes nothing. -/
theorem fillRow_of_all_isSome (cells : List (Option ℚ)) :
    ∀ (carry : List (Option ℚ)), (∀ c ∈ cells, c.isSome = true) →
      cells.length = carry.length → fillRow cells carry = cells := by
  induction cells with
  | nil => intro carry _ _; simp [fillRow]
  | cons c cs ih =>
      intro carry hall hlen
      cases carry with
      | nil => exact absurd hlen (by simp)
      | cons p ps =>
          have hcs : c.isSome = true := hall c (List.mem_cons_self _ _)
          rcases Option.isSome_iff_exists.mp hcs with ⟨x, rfl⟩
          simp only [fillRow, List.zipWith_cons_cons]
          rw [show List.zipWith
              (fun cur pre => match cur with | some x => some x | none => pre) cs ps
              = fillRow cs ps from rfl]
          rw [ih ps (fun d hd => hall d (List.mem_cons_of_mem _ hd)) (by simpa using hlen)]

/-- Forward-filling rows that are complete and well formed changes
nothing. -/
theorem ffillRows_of_complete (n : Nat) (rows : List Row) :
    ∀ (carry : List (Option ℚ)),
      (∀ r ∈ rows, (∀ c ∈ r.cells, c.isSome = true) ∧ r.cells.length = n) →
      carry.length = n → ffillRows carry rows = rows := by
  induction rows with
  | nil => intro carry _ _; simp [ffillRows]
  | cons r rs ih =>
      intro carry hall hlen
      have hr := hall r (List.mem_cons_self _ _)
      have hfill : fillRow r.cells carry = r.cells :=
        fillRow_of_all_isSome r.cells carry hr.1 (by rw [hr.2, hlen])
      simp only [ffillRows, hfill]
      rw [ih r.cells (fun q hq => hall q (List.mem_cons_of_mem _ hq)) hr.2]

/-- df.ffill() is the identity on a complete well-formed frame. -/
theorem ffill_of_complete (f : Frame) (hw : f.wellFormed) (hc : f.complete) :
    f.ffill = f := by
  unfold Frame.ffill
  rw [ffillRows_of_complete f.cols.length f.rows _
    (fun r hr => ⟨hc r hr, hw r hr⟩) (by simp)]

/-- A foldl minimum is at most its seed. -/
theorem foldl_min_le_self (l : List Nat) : ∀ a : Nat, l.foldl min a ≤ a := by
  induction l with
  | nil => intro a; exact le_refl a
  | cons b t ih =>
      intro a
      exact le_trans (ih (min a b)) (min_le_left a b)

/-- A foldl minimum is at most every list element. -/
theorem foldl_min_le (l : List Nat) : ∀ (a : Nat), ∀ x ∈ l, l.foldl min a ≤ x := by
  induction l with
  | nil => intro a x hx; exact absurd hx (List.not_mem_nil x)
  | cons b t ih =>
      intro a x hx
      rcases List.mem_cons.mp hx with rfl | hx
      · exact le_trans (foldl_min_le_self t (min a x)) (min_le_right a x)
      · exact ih (min a b) x hx

/-- A foldl maximum is at least its seed. -/
theorem le_foldl_max_self (l : List Nat) : ∀ a : Nat, a ≤ l.foldl max a := by
  induction l with
  | nil => intro a; exact le_refl a
  | cons b t ih =>
      intro a
      exact le_trans (le_max_left a b) (ih (max a b))

/-- A foldl maximum is at least every list element. -/
theorem le_foldl_max (l : List Nat) : ∀ (a : Nat), ∀ x ∈ l, x ≤ l.foldl max a := by
  induction l with
  | nil => intro a x hx; exact absurd hx (List.not_mem_nil x)
  | cons b t ih =>
      intro a x hx
      rcases List.mem_cons.mp hx with rfl | hx
      · exact le_trans (le_max_right a x) (le_foldl_max_self t (max a x))
      · exact ih (max a b) x hx

/-- On a column slice whose entries are all present, the last-present
aggregation is simply the last entry. -/
theorem lastSome_of_all_isSome (xs : List (Option ℚ)) :
    (∀ x ∈ xs, x.isSome = true) → lastSome xs = xs.getLast?.getD none := by
  induction xs using List.reverseRecOn with
  | nil => intro _; rfl
  | append_singleton ys a ih =>
      intro hall
      have ha : a.isSome = true := hall a (by simp)
      rcases Option.isSome_iff_exists.mp ha with ⟨x, rfl⟩
      unfold lastSome
      rw [List.foldl_concat, List.getLast?_concat]
      rfl

/-- On a complete well-formed nonempty bucket, the column-wise
last-present aggregation returns exactly the cells of the last row. -/
theorem bucketAgg_of_complete (ncols : Nat) (bucket : List Row)
    (hwf : ∀ r ∈ bucket, r.cells.length = ncols)
    (hcp : ∀ r ∈ bucket, ∀ c ∈ r.cells, c.isSome = true)
    (hne : bucket ≠ []) :
    bucketAgg ncols bucket = (bucket.getLast hne).cells := by
  have hlast : (bucket.getLast hne).cells.length = ncols :=
    hwf _ (List.getLast_mem hne)
  apply List.ext_getElem
  · simp [bucketAgg, hlast]
  · intro i h1 h2
    have hi : i < ncols := by simpa [bucketAgg] using h1
    simp only [bucketAgg, List.getElem_map, List.getElem_range]
    rw [lastSome_of_all_isSome]
    · rw [List.getLast?_map, List.getLast?_eq_getLast bucket hne]
      show (bucket.getLast hne).cells.getD i none = _
      rw [List.getD_eq_getElem _ _ (by rw [hlast]; exact hi)]
    · intro x hx
      rcases List.mem_map.mp hx with ⟨r, hr, rfl⟩
      rw [List.getD_eq_getElem _ _ (by rw [hwf r hr]; exact hi)]
      exact hcp r hr _ (List.getElem_mem _)

/-- The aggregation of an empty bucket over at least one column fails
the dropna test: every cell is missing. -/
theorem bucketAgg_nil_not_all (ncols : Nat) (h : 0 < ncols) :
    ((bucketAgg ncols []).all Option.isSome) = false := by
  rw [List.all_eq_false]
  refine ⟨none, ?_, by simp⟩
  exact List.mem_map.mpr ⟨0, List.mem_range.mpr h, rfl⟩

/-- A filterMap by an if-some-else-none function is the map over the
filtered list. -/
theorem filterMap_ite_eq_map_filter {α β : Type} (l : List α) (c : α → Bool)
    (g : α → β) :
    l.filterMap (fun k => if c k then some (g k) else none) = (l.filter c).map g := by
  induction l with
  | nil => rfl
  | cons a t ih =>
      cases h : c a with
      | true => simp [List.filterMap_cons, List.filter_cons, h, ih]
      | false => simp [List.filterMap_cons, List.filter_cons, h, ih]

/-- The dropna test of one resampling bucket succeeds exactly when the
bucket key owns at least one row (for a complete well-formed frame with
at least one column). -/
theorem bucket_all_eq_mem (key : Nat → Nat) (ncols : Nat) (rows : List Row)
    (hwf : ∀ r ∈ rows, r.cells.length = ncols)
    (hcp : ∀ r ∈ rows, ∀ c ∈ r.cells, c.isSome = true)
    (hn : 0 < ncols) (k : Nat) :
    ((bucketAgg ncols (rows.filter (fun r => key r.date = k))).all Option.isSome)
      = decide (k ∈ rows.map (fun r => key r.date)) := by
  by_cases hk : k ∈ rows.map (fun r => key r.date)
  · rw [decide_eq_true hk]
    have hbne : rows.filter (fun r => key r.date = k) ≠ [] := by
      rcases List.mem_map.mp hk with ⟨r, hr, hrk⟩
      intro hnil
      have hmem : r ∈ rows.filter (fun r => key r.date = k) :=
        List.mem_filter.mpr ⟨hr, by simp [hrk]⟩
      rw [hnil] at hmem
      exact absurd hmem (List.not_mem_nil r)
    rw [bucketAgg_of_complete ncols _
      (fun r hr => hwf r (List.mem_filter.mp hr).1)
      (fun r hr => hcp r (List.mem_filter.mp hr).1) hbne]
    rw [List.all_eq_true]
    intro c hcm
    exact hcp _ (List.mem_filter.mp (List.getLast_mem hbne)).1 _ hcm
  · rw [decide_eq_false hk]
    have hbe : rows.filter (fun r => key r.date = k) = [] := by
      rw [List.filter_eq_nil_iff]
      intro r hr
      simp only [decide_eq_true_eq]
      intro hrk
      exact hk (List.mem_map.mpr ⟨r, hr, hrk⟩)
    rw [hbe]
    exact bucketAgg_nil_not_all ncols hn

/-- resampleRows on a nonempty row list is the map of the bucket
aggregation over the surviving candidate labels. -/
theorem resampleRows_cons_eq (key : Nat → Nat) (ncols : Nat) (r0 : Row)
    (rest : List Row) :
    resampleRows key ncols (r0 :: rest)
      = ((List.range' (((r0 :: rest).map (fun r => key r.date)).foldl min (key r0.date))
            ((((r0 :: rest).map (fun r => key r.date)).foldl max (key r0.date)) + 1
              - (((r0 :: rest).map (fun r => key r.date)).foldl min (key r0.date)))).filter
          (fun k => (bucketAgg ncols ((r0 :: rest).filter (fun r => key r.date = k))).all
            Option.isSome)).map
        (fun k => Row.mk k (bucketAgg ncols ((r0 :: rest).filter (fun r => key r.date = k)))) :=
  filterMap_ite_eq_map_filter _ _ _

/-- Filtering a nodup list down to the members of ks (which all lie in
the list) keeps exactly one entry per distinct element of ks. -/
theorem length_filter_mem (l ks : List Nat) (hnd : l.Nodup)
    (hsub : ∀ x ∈ ks, x ∈ l) :
    (l.filter (fun x => decide (x ∈ ks))).length = ks.dedup.length := by
  have h1 : (l.filter (fun x => decide (x ∈ ks))).Nodup := hnd.filter _
  have h2 : (l.filter (fun x => decide (x ∈ ks))).toFinset = ks.toFinset := by
    ext x
    simp only [List.mem_toFinset, List.mem_filter, decide_eq_true_eq]
    exact ⟨fun hx => hx.2, fun hx => ⟨hsub x hx, hx⟩⟩
  calc (l.filter (fun x => decide (x ∈ ks))).length
      = (l.filter (fun x => decide (x ∈ ks))).toFinset.card :=
        (List.toFinset_card_of_nodup h1).symm
    _ = ks.toFinset.card := by rw [h2]
    _ = ks.dedup.length := List.card_toFinset ks

/-- Core correctness of the resample-last-dropna step on a complete
well-formed frame with at least one column: one output row per distinct
bucket key present, and each output row carries the cells of the last
row of its bucket, dated by the bucket label. -/
theorem resampleRows_spec (key : Nat → Nat) (ncols : Nat) (rows : List Row)
    (hwf : ∀ r ∈ rows, r.cells.length = ncols)
    (hcp : ∀ r ∈ rows, ∀ c ∈ r.cells, c.isSome = true)
    (hn : 0 < ncols) :
    (resampleRows key ncols rows).length
        = ((rows.map (fun r => key r.date)).dedup).length
      ∧ ∀ row ∈ resampleRows key ncols rows,
          ∃ b, (rows.filter (fun r => key r.date = row.date)).getLast? = some b
            ∧ row.cells = b.cells ∧ row.date = key b.date := by
  cases rows with
  | nil =>
      constructor
      · rfl
      · intro row hrow
        exact absurd hrow (List.not_mem_nil row)
  | cons r0 rest =>
      rw [resampleRows_cons_eq]
      rw [List.filter_congr (fun k _ => bucket_all_eq_mem key ncols (r0 :: rest) hwf hcp hn k)]
      have hsub : ∀ x ∈ (r0 :: rest).map (fun r => key r.date),
          x ∈ List.range'
            (((r0 :: rest).map (fun r => key r.date)).foldl min (key r0.date))
            ((((r0 :: rest).map (fun r => key r.date)).foldl max (key r0.date)) + 1
              - (((r0 :: rest).map (fun r => key r.date)).foldl min (key r0.date))) := by
        intro x hx
        rw [List.mem_range'_1]
        have h1 := foldl_min_le ((r0 :: rest).map (fun r => key r.date)) (key r0.date) x hx
        have h2 := le_foldl_max ((r0 :: rest).map (fun r => key r.date)) (key r0.date) x hx
        have h3 : key r0.date ∈ (r0 :: rest).map (fun r => key r.date) := by simp
        have h4 := foldl_min_le ((r0 :: rest).map (fun r => key r.date)) (key r0.date)
          (key r0.date) h3
        have h5 := le_foldl_max ((r0 :: rest).map (fun r => key r.date)) (key r0.date)
          (key r0.date) h3
        omega
      constructor
      · rw [List.length_map]
        exact length_filter_mem _ _ (List.nodup_range' _ _) hsub
      · intro row hrow
        rcases List.mem_map.mp hrow with ⟨k, hkf, rfl⟩
        have hkm := (List.mem_filter.mp hkf).2
        have hk : k ∈ (r0 :: rest).map (fun r => key r.date) := by
          simpa using hkm
        have hbne : (r0 :: rest).filter (fun r => key r.date = k) ≠ [] := by
          rcases List.mem_map.mp hk with ⟨r, hr, hrk⟩
          intro hnil
          have hmem : r ∈ (r0 :: rest).filter (fun r => key r.date = k) :=
            List.mem_filter.mpr ⟨hr, by simp [hrk]⟩
          rw [hnil] at hmem
          exact absurd hmem (List.not_mem_nil r)
        refine ⟨(( r0 :: rest).filter (fun r => key r.date = k)).getLast hbne,
          List.getLast?_eq_getLast _ hbne, ?_, ?_⟩
        · exact bucketAgg_of_complete ncols _
            (fun r hr => hwf r (List.mem_filter.mp hr).1)
            (fun r hr => hcp r (List.mem_filter.mp hr).1) hbne
        · have hmem := List.getLast_mem hbne
          have hkey := (List.mem_filter.mp hmem).2
          exact (of_decide_eq_true hkey).symm

/-- The dates of the resample output are strictly increasing: they form
a sub-list of the strictly increasing candidate label range. -/
theorem resampleRows_dates_sorted (key : Nat → Nat) (ncols : Nat)
    (rows : List Row) :
    List.Pairwise (· < ·) ((resampleRows key ncols rows).map Row.date) := by
  cases rows with
  | nil => exact List.Pairwise.nil
  | cons r0 rest =>
      rw [resampleRows_cons_eq, List.map_map]
      rw [show (Row.date ∘ fun k =>
          Row.mk k (bucketAgg ncols ((r0 :: rest).filter (fun r => key r.date = k))))
          = id from rfl]
      rw [List.map_id]
      exact (List.pairwise_lt_range' _ _).filter _

/-- Claim C1: for a complete well-formed date-sorted raw series and any
granularity with a resampling frequency (Daily, Weekly or Monthly),
fetch_stock_data prints the frequency notice and returns one bar per
distinct bucket key present in the raw series (empty buckets are
dropped), each output bar carrying the cells of the last raw bar of its
bucket and dated by the bucket label. -/
theorem c1_resample_last_bucket (g freq : String) (raw : Frame)
    (hfr : freqOf g = some freq)
    (hw : raw.wellFormed) (hc : raw.complete) (hcols : raw.cols ≠ [])
    (hs : List.Chain' (· ≤ ·) (raw.rows.map Row.date)) :
    ∃ out, fetch_stock_data_frame g raw
        = Except.ok (out, ["The set level of Granularity is: " ++ freq ++ "."])
      ∧ out.cols = raw.cols
      ∧ out.rows.length
          = ((raw.rows.map (fun r => bucketKeyOfFreq freq r.date)).dedup).length
      ∧ ∀ row ∈ out.rows,
          ∃ b, (raw.rows.filter
                  (fun r => bucketKeyOfFreq freq r.date = row.date)).getLast?
                = some b
            ∧ row.cells = b.cells ∧ row.date = bucketKeyOfFreq freq b.date := by
  have hgm : ¬ g = "Minute" := by
    intro hg
    rw [hg] at hfr
    simp [freqOf] at hfr
  have hff : raw.ffill = raw := ffill_of_complete raw hw hc
  have hncols : 0 < raw.cols.length := List.length_pos.mpr hcols
  have hfetch : fetch_stock_data_frame g raw
      = Except.ok (raw.resampleLast (bucketKeyOfFreq freq),
          ["The set level of Granularity is: " ++ freq ++ "."]) := by
    simp only [fetch_stock_data_frame]
    rw [if_neg hgm, hfr, hff]
  obtain ⟨hlen, hmem⟩ :=
    resampleRows_spec (bucketKeyOfFreq freq) raw.cols.length raw.rows hw hc hncols
  exact ⟨raw.resampleLast (bucketKeyOfFreq freq), hfetch, rfl, hlen, hmem⟩

/-- Witness for c1_resample_last_bucket: a three-bar daily series with
two bars sharing day 0 resamples to two bars. -/
theorem c1_witness :
    ∃ out, fetch_stock_data_frame "Daily"
          (Frame.mk ["Close"] [Row.mk 0 [some 1], Row.mk 0 [some 2], Row.mk 2 [some 3]])
        = Except.ok (out, ["The set level of Granularity is: " ++ "D" ++ "."])
      ∧ out.cols = (Frame.mk ["Close"]
          [Row.mk 0 [some 1], Row.mk 0 [some 2], Row.mk 2 [some 3]]).cols
      ∧ out.rows.length
          = (((Frame.mk ["Close"]
              [Row.mk 0 [some 1], Row.mk 0 [some 2], Row.mk 2 [some 3]]).rows.map
                (fun r => bucketKeyOfFreq "D" r.date)).dedup).length
      ∧ ∀ row ∈ out.rows,
          ∃ b, ((Frame.mk ["Close"]
                  [Row.mk 0 [some 1], Row.mk 0 [some 2], Row.mk 2 [some 3]]).rows.filter
                  (fun r => bucketKeyOfFreq "D" r.date = row.date)).getLast?
                = some b
            ∧ row.cells = b.cells ∧ row.date = bucketKeyOfFreq "D" b.date :=
  c1_resample_last_bucket "Daily" "D"
    (Frame.mk ["Close"] [Row.mk 0 [some 1], Row.mk 0 [some 2], Row.mk 2 [some 3]])
    rfl (by decide) (by decide) (by decide) (by simp [List.chain'_cons])

/-- Claim C8: after the resample-and-dropna step of the Fetcher the bar
dates are strictly increasing (hence duplicate-free), and strict
monotonicity of dates is preserved both by the date-range filter and by
the lag augmentation. -/
theorem c8_dates_strict_mono (g : String) (raw out : Frame) (ns : List String)
    (hgm : ¬ g = "Minute")
    (hok : fetch_stock_data_frame g raw = Except.ok (out, ns)) :
    List.Pairwise (· < ·) (out.rows.map Row.date)
    ∧ (∀ (f2 : Frame) (s : Int),
        List.Pairwise (· < ·) (f2.rows.map Row.date) →
        List.Pairwise (· < ·) ((filterFromDate s f2).rows.map Row.date))
    ∧ (∀ (f2 out2 : Frame) (K G : Nat),
        List.Pairwise (· < ·) (f2.rows.map Row.date) →
        add_lags f2 K G = Except.ok out2 →
        List.Pairwise (· < ·) (out2.rows.map Row.date)) := by
  refine ⟨?_, ?_, ?_⟩
  · simp only [fetch_stock_data_frame] at hok
    rw [if_neg hgm] at hok
    cases hfr : freqOf g with
    | none =>
        rw [hfr] at hok
        exact absurd hok (by simp)
    | some freq =>
        rw [hfr] at hok
        have h1 := (Except.ok.injEq _ _).mp hok
        have h2 : (raw.ffill).resampleLast (bucketKeyOfFreq freq) = out :=
          congrArg Prod.fst h1
        rw [← h2]
        exact resampleRows_dates_sorted _ _ _
  · intro f2 s hp
    exact List.Pairwise.sublist (List.Sublist.map _ (List.filter_sublist _)) hp
  · intro f2 out2 K G hp hok2
    unfold add_lags at hok2
    cases hj : f2.cols.findIdx? (fun c => c = "Close") with
    | none =>
        rw [hj] at hok2
        exact absurd hok2 (by simp)
    | some j =>
        rw [hj] at hok2
        have hout2 : out2
            = Frame.mk (f2.cols ++ (List.range K).map (fun i => lagColName (i + 1)))
                ((f2.rows.enum.map
                  (fun p => Row.mk p.2.date
                    (p.2.cells ++
                      ((List.range K).map (fun i => shiftCol ((i + 1) * G) (colValues f2 j))).map
                        (fun c => c.getD p.1 none)))).filter
                  (fun r => r.cells.all Option.isSome)) :=
          ((Except.ok.injEq _ _).mp hok2).symm
        rw [hout2]
        have heq : (f2.rows.enum.map
            (fun p => Row.mk p.2.date
              (p.2.cells ++
                ((List.range K).map (fun i => shiftCol ((i + 1) * G) (colValues f2 j))).map
                  (fun c => c.getD p.1 none)))).map Row.date
            = f2.rows.map Row.date := by
          apply List.ext_getElem
          · simp
          · intro n hh1 hh2
            simp
        have hsub : List.Sublist
            (((f2.rows.enum.map
              (fun p => Row.mk p.2.date
                (p.2.cells ++
                  ((List.range K).map (fun i => shiftCol ((i + 1) * G) (colValues f2 j))).map
                    (fun c => c.getD p.1 none)))).filter
                (fun r => r.cells.all Option.isSome)).map Row.date)
            ((f2.rows.enum.map
              (fun p => Row.mk p.2.date
                (p.2.cells ++
                  ((List.range K).map (fun i => shiftCol ((i + 1) * G) (colValues f2 j))).map
                    (fun c => c.getD p.1 none)))).map Row.date) :=
          List.Sublist.map _ (List.filter_sublist _)
        rw [heq] at hsub
        exact List.Pairwise.sublist hsub hp

/-- Witness for c8_dates_strict_mono: the dates of the resampled
three-bar daily example are strictly increasing, and so after filtering
and lagging. -/
theorem c8_witness :
    List.Pairwise (· < ·)
        ((Frame.mk ["Close"] [Row.mk 0 [some 2], Row.mk 2 [some 3]]).rows.map Row.date)
    ∧ (∀ (f2 : Frame) (s : Int),
        List.Pairwise (· < ·) (f2.rows.map Row.date) →
        List.Pairwise (· < ·) ((filterFromDate s f2).rows.map Row.date))
    ∧ (∀ (f2 out2 : Frame) (K G : Nat),
        List.Pairwise (· < ·) (f2.rows.map Row.date) →
        add_lags f2 K G = Except.ok out2 →
        List.Pairwise (· < ·) (out2.rows.map Row.date)) :=
  c8_dates_strict_mono "Daily"
    (Frame.mk ["Close"] [Row.mk 0 [some 1], Row.mk 0 [some 2], Row.mk 2 [some 3]])
    (Frame.mk ["Close"] [Row.mk 0 [some 2], Row.mk 2 [some 3]])
    ["The set level of Granularity is: D."] (by decide) rfl

end Y1D
